import Mathlib

/-!
Verification of the Musicolour musicality engine
(`src/musicalityEngine.js`).

The engine is embedded shallowly: JavaScript numbers are modelled as exact
rationals (`ℚ`), note indices as integers (`ℤ`).  The single irrational
operation in the source, `Math.sqrt` inside `updateRhythmicConsistency`, is
modelled by parametrising the engine over a function `sqrtFn : ℚ → ℚ`.
Universal theorems hold for every `sqrtFn` that is nonnegative on
nonnegative inputs (which the real square root is); concrete executions use
`ratSqrt`, which agrees exactly with the real square root whenever its
argument is the square of a rational — all concrete runs below are chosen so
that every square root that influences the stated value is taken at such a
perfect square.  (Intermediate metric values of a run may involve other
square roots, but the engine overwrites each metric from the histories alone
on every sufficiently long call; the proofs about concrete runs factor those
intermediate values out through the existentially quantified `old` argument
of the last-call lemmas, so the stated values never depend on them.)

JavaScript's `%` on integers is truncated remainder (sign of the dividend),
i.e. `Int.tmod`.  JavaScript division by zero produces `Infinity`/`NaN`
while `ℚ` division by zero produces `0`; all statements about concrete runs
use strictly increasing timestamps (positive inter-onset intervals), where
the two semantics agree.
-/

/-- Consecutive differences of a list: `diffs [a, b, c] = [b - a, c - b]`.
Mirrors the JS loops `for (i = 1; i < a.length; i++) out.push(a[i] - a[i-1])`. -/
def diffs {α : Type} [Sub α] : List α → List α
  | x :: y :: rest => (y - x) :: diffs (y :: rest)
  | _ => []

/-- `l.slice(-n)` in JavaScript: the last `n` elements (all of `l` if shorter). -/
def takeLast {α : Type} (n : Nat) (l : List α) : List α := l.drop (l.length - n)

/-- Arithmetic mean of a list of rationals (`0` on the empty list). -/
def listMean (l : List ℚ) : ℚ := l.sum / (l.length : ℚ)

/-- `calculateVariance` from the source: population variance, `0` on `[]`. -/
def calculateVariance (values : List ℚ) : ℚ :=
  if values.length = 0 then 0
  else ((values.map (fun v => (v - listMean values) ^ 2)).sum) / (values.length : ℚ)

/-- Exact rational square root: equals the real square root whenever the
argument is a square of a rational (in particular at `0`), and `0` otherwise.
Always nonnegative, as `Math.sqrt` is on the nonnegative arguments the engine
feeds it (variances). -/
def ratSqrt (q : ℚ) : ℚ :=
  let sn := Nat.sqrt q.num.natAbs
  let sd := Nat.sqrt q.den
  if 0 ≤ q.num ∧ sn * sn = q.num.natAbs ∧ sd * sd = q.den then (sn : ℚ) / (sd : ℚ) else 0

/-- The scale table `SCALES` from the source. -/
def SCALES : List (String × List ℤ) :=
  [("MAJOR", [0, 2, 4, 5, 7, 9, 11]),
   ("NATURAL_MINOR", [0, 2, 3, 5, 7, 8, 10]),
   ("HARMONIC_MINOR", [0, 2, 3, 5, 7, 8, 11]),
   ("PENTATONIC_MAJOR", [0, 2, 4, 7, 9]),
   ("PENTATONIC_MINOR", [0, 3, 5, 7, 10]),
   ("BLUES", [0, 3, 5, 6, 7, 10]),
   ("CHROMATIC", [0, 1, 2, 3, 4, 5, 6, 7, 8, 9, 10, 11])]

/-- The chord table `CHORDS` from the source. -/
def CHORDS : List (String × List ℤ) :=
  [("MAJOR_TRIAD", [0, 4, 7]),
   ("MINOR_TRIAD", [0, 3, 7]),
   ("DIMINISHED", [0, 3, 6]),
   ("AUGMENTED", [0, 4, 8]),
   ("MAJOR_SEVENTH", [0, 4, 7, 11]),
   ("DOMINANT_SEVENTH", [0, 4, 7, 10]),
   ("MINOR_SEVENTH", [0, 3, 7, 10])]

/-- The chord-progression table `PROGRESSIONS` from the source (scale-degree
root sequences).  In `src/musicalityEngine.js` this table is declared but
never read. -/
def PROGRESSIONS : List (String × List ℤ) :=
  [("I_V_vi_IV", [0, 7, 9, 5]),
   ("I_IV_V", [0, 5, 7]),
   ("ii_V_I", [2, 7, 0]),
   ("I_vi_IV_V", [0, 9, 5, 7]),
   ("vi_IV_I_V", [9, 5, 0, 7])]

/-- The six-field metrics record of the engine. -/
structure Metrics where
  melodicCoherence : ℚ
  harmonicProgression : ℚ
  rhythmicConsistency : ℚ
  scaleAdherence : ℚ
  phraseStructure : ℚ
  dynamicVariation : ℚ
deriving DecidableEq, Repr

/-- `scaleContext` entries: `{ name, root, score }` as set by
`updateScaleAdherence`. -/
structure ScaleContext where
  name : String
  root : ℤ
  score : ℚ
deriving DecidableEq, Repr

/-- Full engine state (the fields of `MusicalityEngine`).  `chordBuffer`,
`rhythmPattern`, `lastBeat` and `tempo` are initialised and reset by the
source but never otherwise read or written. -/
structure EngineState where
  noteHistory : List ℤ
  timeHistory : List ℚ
  chordBuffer : List ℤ
  scaleContext : Option ScaleContext
  rhythmPattern : List ℚ
  lastBeat : Option ℚ
  tempo : Option ℚ
  musicalityScore : ℚ
  metrics : Metrics
deriving DecidableEq, Repr

/-- The constructor state of `MusicalityEngine`. -/
def initState : EngineState :=
  { noteHistory := [], timeHistory := [], chordBuffer := [], scaleContext := none,
    rhythmPattern := [], lastBeat := none, tempo := none, musicalityScore := 0,
    metrics := ⟨0, 0, 0, 0, 0, 0⟩ }

/-- `reset()`: every field is assigned its constructor value (the metrics via
`Object.keys(this.metrics).forEach(key => this.metrics[key] = 0)`). -/
def reset (s : EngineState) : EngineState :=
  { s with
      noteHistory := []
      timeHistory := []
      chordBuffer := []
      scaleContext := none
      rhythmPattern := []
      lastBeat := none
      tempo := none
      musicalityScore := 0
      metrics := ⟨0, 0, 0, 0, 0, 0⟩ }

/-- `detectRhythmPatterns(intervals)` from the source. -/
def detectRhythmPatterns (intervals : List ℚ) : ℚ :=
  if intervals.length < 4 then 0
  else
    let i0 := intervals.headD 0
    let steadyBeat := intervals.all (fun i => decide (|i - i0| < i0 * 0.1))
    let p1 : ℚ := if steadyBeat then 0.5 else 0
    let syncopated := ((takeLast 4 intervals).enum).all
      (fun p => if p.1 % 2 = 0 then decide (i0 * 1.3 < p.2) else decide (p.2 < i0 * 0.7))
    let p2 : ℚ := if syncopated then 0.7 else 0
    let p3 : ℚ :=
      if 3 ≤ intervals.length then
        let tripletQuot := intervals.getD (intervals.length - 1) 0 /
          intervals.getD (intervals.length - 3) 0
        if |tripletQuot - 0.667| < 0.1 then 0.6 else 0
      else 0
    min 1 (p1 + p2 + p3)

/-- `updateRhythmicConsistency(timestamp)` from the source, returning the new
value of `metrics.rhythmicConsistency` (the previous value on the early
return).  `sqrtFn` stands for `Math.sqrt`. -/
def updateRhythmicConsistency (sqrtFn : ℚ → ℚ) (timeHistory : List ℚ) (old : ℚ) : ℚ :=
  if timeHistory.length < 2 then old
  else
    let intervals := diffs timeHistory
    let recentIntervals := takeLast 8 intervals
    let avgInterval := recentIntervals.sum / (recentIntervals.length : ℚ)
    let variance := ((recentIntervals.map (fun i => (i - avgInterval) ^ 2)).sum) /
      (recentIntervals.length : ℚ)
    let stdDev := sqrtFn variance
    let consistency := 1 - min 1 (stdDev / avgInterval)
    let rhythmScore := detectRhythmPatterns intervals
    let bpm := 60000 / avgInterval
    let tempoScore : ℚ :=
      if 60 ≤ bpm ∧ bpm ≤ 180 then 1
      else if 40 ≤ bpm ∧ bpm ≤ 240 then 0.7
      else if 240 < bpm ∧ bpm ≤ 300 then 0.3
      else if 300 < bpm then 0
      else if bpm < 40 ∧ 20 ≤ bpm then 0.3
      else 0
    let tempoScore := if avgInterval < 150 then 0 else tempoScore
    let consistency := if avgInterval < 150 then consistency * 0.3 else consistency
    consistency * 0.5 + rhythmScore * 0.3 + tempoScore * 0.2

/-- Direction-change count in `analyzeMelodicContour`: `direction` starts at
`0` and a change is counted (and the direction updated) exactly when the new
sign is nonzero and differs from the stored direction. -/
def directionChangesAux : ℤ → Nat → List ℤ → Nat
  | _, acc, [] => acc
  | dir, acc, d :: rest =>
    if d.sign ≠ 0 ∧ d.sign ≠ dir then directionChangesAux d.sign (acc + 1) rest
    else directionChangesAux dir acc rest

/-- `analyzeMelodicContour(notes)` from the source. -/
def analyzeMelodicContour (notes : List ℤ) : ℚ :=
  if notes.length < 4 then 0
  else
    let firstNote := notes.headD 0
    let lastNote := notes.getLastD 0
    let middleNote := notes.getD (notes.length / 2) 0
    if firstNote < middleNote ∧ lastNote < middleNote then 1
    else if middleNote < firstNote ∧ middleNote < lastNote then 0.9
    else
      let steps := diffs notes
      let isAscending := steps.all (fun d => decide (0 ≤ d))
      let isDescending := steps.all (fun d => decide (d ≤ 0))
      if isAscending ∨ isDescending then 0.7
      else
        let dc := directionChangesAux 0 0 steps
        if 2 ≤ dc ∧ dc ≤ 4 then 0.6 else 0.3

/-- `updateMelodicCoherence()` from the source, returning the new value of
`metrics.melodicCoherence`. -/
def updateMelodicCoherence (noteHistory : List ℤ) (old : ℚ) : ℚ :=
  if noteHistory.length < 3 then old
  else
    let recentNotes := takeLast 8 noteHistory
    let intervals := diffs recentNotes
    let repeatedNotes := (intervals.filter (fun i => decide (i = 0))).length
    let stepwiseMotion := (intervals.filter (fun i => decide (i ≠ 0 ∧ i.natAbs ≤ 2))).length
    let leapMotion := (intervals.filter (fun i => decide (5 ≤ i.natAbs))).length
    let totalIntervals : ℚ := (intervals.length : ℚ)
    let stepwiseFrac := (stepwiseMotion : ℚ) / totalIntervals
    let leapFrac := (leapMotion : ℚ) / totalIntervals
    let repetitionFrac := (repeatedNotes : ℚ) / totalIntervals
    let coherenceScore := min 1 (stepwiseFrac * 1.5) + min 0.3 (leapFrac * 2) -
      repetitionFrac * 0.5
    let contourScore := analyzeMelodicContour recentNotes
    max 0 (min 1 (coherenceScore * 0.6 + contourScore * 0.4))

/-- Distinct pitch classes of a note list (`new Set(notes.map(n => n % 12))`).
JavaScript `%` is truncated remainder, `Int.tmod`.  Only the size of the set
and membership in it are ever consumed, so the order `List.dedup` keeps is
immaterial. -/
def pitchClasses (notes : List ℤ) : List ℤ := (notes.map (fun n => Int.tmod n 12)).dedup

/-- The scale-search loop of `updateScaleAdherence`: running best
`(bestScale, bestScore)`, templates in table order, roots `0..11`, strict
improvement required. -/
def bestScaleFold (pcs : List ℤ) : Option ScaleContext × ℚ :=
  SCALES.foldl (fun acc sc =>
    (List.range 12).foldl (fun acc2 root =>
      let scaleNotes := sc.2.map (fun i => Int.tmod ((root : ℤ) + i) 12)
      let matchCount := (pcs.filter (fun pc => decide (pc ∈ scaleNotes))).length
      let score := (matchCount : ℚ) / (pcs.length : ℚ)
      if acc2.2 < score then (some ⟨sc.1, root, score⟩, score) else acc2) acc)
    (none, 0)

/-- `updateScaleAdherence()` from the source: returns the new
`(scaleContext, metrics.scaleAdherence)` pair. -/
def updateScaleAdherence (noteHistory : List ℤ) (oldCtx : Option ScaleContext) (old : ℚ) :
    Option ScaleContext × ℚ :=
  if noteHistory.length < 5 then (oldCtx, old)
  else bestScaleFold (pitchClasses (takeLast 12 noteHistory))

/-- `detectChordProgression(notes)` from the source: best match ratio over the
chord templates at all roots, requiring at least 2 matching pitch classes.
The `PROGRESSIONS` table plays no part in it. -/
def detectChordProgression (notes : List ℤ) : ℚ :=
  let pcs := pitchClasses notes
  if pcs.length < 2 then 0
  else
    CHORDS.foldl (fun acc ch =>
      (List.range 12).foldl (fun acc2 root =>
        let chordNotes := (ch.2.map (fun i => Int.tmod ((root : ℤ) + i) 12)).dedup
        let matchCount := (pcs.filter (fun pc => decide (pc ∈ chordNotes))).length
        if 2 ≤ matchCount then max acc2 ((matchCount : ℚ) / (chordNotes.length : ℚ)) else acc2) acc)
      0

/-- `updateHarmonicProgression()` from the source. -/
def updateHarmonicProgression (noteHistory : List ℤ) (old : ℚ) : ℚ :=
  if noteHistory.length < 3 then old
  else detectChordProgression (takeLast 6 noteHistory)

/-- `updatePhraseStructure()` from the source.  (The source also computes the
inter-onset intervals and their mean here but never uses them.) -/
def updatePhraseStructure (noteHistory : List ℤ) (scaleContext : Option ScaleContext)
    (old : ℚ) : ℚ :=
  if noteHistory.length < 8 then old
  else
    let p1 : ℚ := if noteHistory.length % 4 = 0 ∨ noteHistory.length % 8 = 0 then 0.5 else 0
    let p2 : ℚ :=
      match scaleContext with
      | some ctx =>
        if 8 ≤ noteHistory.length ∧ Int.tmod (noteHistory.getLastD 0) 12 = ctx.root
        then 0.5 else 0
      | none => 0
    min 1 (p1 + p2)

/-- `updateDynamicVariation(velocity)` from the source. -/
def updateDynamicVariation (velocity : ℚ) : ℚ := 0.5 + (velocity - 0.5) * 0.5

/-- The fixed-weight sum in `calculateMusicalityScore` (weights
0.25/0.15/0.25/0.2/0.1/0.05). -/
def metricsWeightedSum (m : Metrics) : ℚ :=
  m.melodicCoherence * 0.25 + m.harmonicProgression * 0.15 +
  m.rhythmicConsistency * 0.25 + m.scaleAdherence * 0.2 +
  m.phraseStructure * 0.1 + m.dynamicVariation * 0.05

/-- Unweighted total of the six metrics (`Object.values(this.metrics)` sum in
`calculatePenalties`). -/
def metricsTotal (m : Metrics) : ℚ :=
  m.melodicCoherence + m.harmonicProgression + m.rhythmicConsistency +
  m.scaleAdherence + m.phraseStructure + m.dynamicVariation

/-- `detectRepeatingPatterns()` from the source: some 2–4 note block
immediately repeated. -/
def detectRepeatingPatterns (noteHistory : List ℤ) : Bool :=
  if noteHistory.length < 8 then false
  else
    [2, 3, 4].any (fun pl =>
      (List.range (noteHistory.length - pl * 2 + 1)).any (fun i =>
        decide ((noteHistory.drop i).take pl = (noteHistory.drop (i + pl)).take pl)))

/-- `detectScalePatterns()` from the source.  (It also tallies ascending and
descending steps separately but only the stepwise total is consumed.) -/
def detectScalePatterns (noteHistory : List ℤ) : Bool :=
  if noteHistory.length < 4 then false
  else
    let recent := takeLast 8 noteHistory
    let stepwiseMotion := ((diffs recent).filter
      (fun d => decide ((1 ≤ d ∧ d ≤ 2) ∨ (-2 ≤ d ∧ d ≤ -1)))).length
    decide (((recent.length : ℚ) - 1) * 0.6 ≤ (stepwiseMotion : ℚ))

/-- `detectRandomPlaying()` from the source. -/
def detectRandomPlaying (noteHistory : List ℤ) (timeHistory : List ℚ) (m : Metrics) : Bool :=
  if noteHistory.length < 5 then false
  else
    let intervals := (diffs noteHistory).map (fun d => (d.natAbs : ℚ))
    let avgInterval := intervals.sum / (intervals.length : ℚ)
    let largeJumps := (intervals.filter (fun i => decide ((8 : ℚ) < i))).length
    let veryLargeJumps := (intervals.filter (fun i => decide ((12 : ℚ) < i))).length
    let timeIntervals := diffs timeHistory
    let timeVariance := calculateVariance timeIntervals
    let avgTimeInterval := timeIntervals.sum / (timeIntervals.length : ℚ)
    let timeInconsistency := timeVariance / (avgTimeInterval * avgTimeInterval)
    let hasRepeatingPatterns := detectRepeatingPatterns noteHistory
    let hasScalePatterns := detectScalePatterns noteHistory
    let r1 : ℚ := if (intervals.length : ℚ) * 0.25 < (largeJumps : ℚ) then 0.3 else 0
    let r2 : ℚ := if 0 < veryLargeJumps then 0.2 else 0
    let r3 : ℚ := if 5 < avgInterval then 0.2 else 0
    let r4 : ℚ := if 0.15 < timeInconsistency then 0.2 else 0
    let r5 : ℚ := if ¬hasRepeatingPatterns then 0.2 else 0
    let r6 : ℚ := if ¬hasScalePatterns then 0.2 else 0
    let r7 : ℚ := if m.melodicCoherence < 0.5 then 0.2 else 0
    let r8 : ℚ := if 0.8 < m.rhythmicConsistency then -0.2 else 0
    let r9 : ℚ := if hasScalePatterns then -0.3 else 0
    decide ((0.5 : ℚ) < r1 + r2 + r3 + r4 + r5 + r6 + r7 + r8 + r9)

/-- Result of `calculatePenalties()`. -/
structure Penalties where
  multiplier : ℚ
  isRandom : Bool
  isMashing : Bool
deriving DecidableEq, Repr

/-- `calculatePenalties()` from the source. -/
def calculatePenalties (noteHistory : List ℤ) (timeHistory : List ℚ) (m : Metrics) :
    Penalties :=
  let isRandom := detectRandomPlaying noteHistory timeHistory m
  let m1 : ℚ := if isRandom then 0.3 else 1
  let mashing :=
    if 3 ≤ timeHistory.length then
      let intervals := diffs (takeLast 5 timeHistory)
      let avgInterval := intervals.sum / (intervals.length : ℚ)
      decide (avgInterval < 100)
    else false
  let m2 : ℚ := if mashing then 0.1 else 1
  let m3 : ℚ := if metricsTotal m < 1.5 then 0.5 else 1
  ⟨m1 * m2 * m3, isRandom, mashing⟩

/-- `calculateMusicalityScore()` from the source: weighted sum, penalty
multiplier, and the 0.2 cap under random/mashing detection. -/
def calculateMusicalityScore (noteHistory : List ℤ) (timeHistory : List ℚ) (m : Metrics) :
    ℚ :=
  let p := calculatePenalties noteHistory timeHistory m
  let score := metricsWeightedSum m * p.multiplier
  if p.isRandom ∨ p.isMashing then min score 0.2 else score

/-- `calculateExcitementBoost()` from the source: stateless piecewise scaling
of the current musicality score. -/
def calculateExcitementBoost (musicalityScore : ℚ) : ℚ :=
  let baseRatePerNote : ℚ := 0.00492
  let boost : ℚ :=
    if 0.85 < musicalityScore then 1.15
    else if musicalityScore < 0.3 then 0
    else musicalityScore
  baseRatePerNote * boost

/-- The `{score, metrics, excitement}` object returned by `processNote`. -/
structure NoteResult where
  score : ℚ
  metrics : Metrics
  excitement : ℚ
deriving DecidableEq, Repr

/-- `processNote(noteIndex, timestamp, velocity)` from the source: push the
event, evict the oldest once the window exceeds 32, recompute the metrics in
source order (phrase structure reads the scale context written one step
earlier), then the score and the excitement boost.  Returns the new state and
the returned object. -/
def processNote (sqrtFn : ℚ → ℚ) (s : EngineState) (noteIndex : ℤ) (timestamp : ℚ)
    (velocity : ℚ) : EngineState × NoteResult :=
  let nh0 := s.noteHistory ++ [noteIndex]
  let th0 := s.timeHistory ++ [timestamp]
  let nh := if 32 < nh0.length then nh0.tail else nh0
  let th := if 32 < nh0.length then th0.tail else th0
  let rhythmic := updateRhythmicConsistency sqrtFn th s.metrics.rhythmicConsistency
  let melodic := updateMelodicCoherence nh s.metrics.melodicCoherence
  let scalePair := updateScaleAdherence nh s.scaleContext s.metrics.scaleAdherence
  let harmonic := updateHarmonicProgression nh s.metrics.harmonicProgression
  let phrase := updatePhraseStructure nh scalePair.1 s.metrics.phraseStructure
  let dynamic := updateDynamicVariation velocity
  let m : Metrics := ⟨melodic, harmonic, rhythmic, scalePair.2, phrase, dynamic⟩
  let score := calculateMusicalityScore nh th m
  ({ s with
      noteHistory := nh
      timeHistory := th
      scaleContext := scalePair.1
      musicalityScore := score
      metrics := m },
   ⟨score, m, calculateExcitementBoost score⟩)

/-- One input event for the engine. -/
structure NoteInput where
  noteIndex : ℤ
  timestamp : ℚ
  velocity : ℚ
deriving DecidableEq, Repr

/-- Fold a sequence of events through `processNote`, returning the final state. -/
def runEngine (sqrtFn : ℚ → ℚ) (s : EngineState) : List NoteInput → EngineState
  | [] => s
  | e :: rest => runEngine sqrtFn (processNote sqrtFn s e.noteIndex e.timestamp e.velocity).1 rest

/-- Fold a sequence of events through `processNote`, returning the list of
returned `{score, metrics, excitement}` objects. -/
def runResults (sqrtFn : ℚ → ℚ) (s : EngineState) : List NoteInput → List NoteResult
  | [] => []
  | e :: rest =>
    (processNote sqrtFn s e.noteIndex e.timestamp e.velocity).2 ::
      runResults sqrtFn (processNote sqrtFn s e.noteIndex e.timestamp e.velocity).1 rest

/-! ### Spec-modelled definitions

`src/MusicolourApp.jsx` (newest variant) imports
`MusicalityEngine, { MODEL_PARAMS } from './musicalityEngine'` and manipulates
`engine.ema` together with the tunable `EMA_ALPHA` / `BOOST_POS` / `BOOST_NEG`
/ `CHORD_WINDOW` parameters, but that version of `musicalityEngine.js` is not
part of the source tree here; only this caller and the spec describe the EMA
excitement driver and the chord-buffer machinery.  The definitions below model
those two missing subsystems from the spec. -/

/-- Modelled from the spec: the excitement driver of §4.9, missing from the
source tree (only its caller references `engine.ema`, `EMA_ALPHA`,
`BOOST_POS`, `BOOST_NEG`).  State `none` is `Uninitialized`, `some e` is
`Tracking` with EMA value `e`.  The first processed event seeds the EMA with
its score and emits delta 0; afterwards `delta = score − ema` is computed
before the update `ema ← alpha·score + (1−alpha)·ema`, and the emitted
increment is the boost constant times delta for `delta > 0`, the decay
constant times delta otherwise. -/
def emaStep (alpha boostPos boostNeg : ℚ) : Option ℚ → ℚ → Option ℚ × ℚ
  | none, score => (some score, 0)
  | some e, score =>
    let delta := score - e
    (some (alpha * score + (1 - alpha) * e),
     if 0 < delta then boostPos * delta else boostNeg * delta)

/-- Modelled from the spec: chord-buffer state of §4.5(a), missing from the
source tree (only the caller's `CHORD_WINDOW` parameter references it).  The
history keeps detected chord root pitch classes (`none` = no chord), bounded
to the last 4. -/
structure ChordState where
  buffer : List ℤ
  bufferStart : ℚ
  history : List (Option ℤ)
deriving DecidableEq, Repr

/-- Modelled from the spec: the chord window duration (`e.g. 250 ms`). -/
def CHORD_WINDOW : ℚ := 250

/-- Modelled from the spec: classify a flushed buffer against the fixed chord
templates at every root, requiring at least a 2-of-3 (or full) pitch-class
match; the best match (maximal match count, canonical table order on ties)
provides the detected root, and `none` is produced when no template reaches
two matches. -/
def specClassifyChord (notes : List ℤ) : Option ℤ :=
  let pcs := pitchClasses notes
  let best := CHORDS.foldl (fun acc ch =>
    (List.range 12).foldl (fun acc2 root =>
      let chordNotes := ch.2.map (fun i => Int.tmod ((root : ℤ) + i) 12)
      let matchCount := (pcs.filter (fun pc => decide (pc ∈ chordNotes))).length
      if 2 ≤ matchCount ∧ acc2.2 < matchCount then ((root : ℤ), matchCount) else acc2) acc)
    ((0 : ℤ), 0)
  if 2 ≤ best.2 then some best.1 else none

/-- Modelled from the spec: one ingest step of the chord accumulator — start a
buffer on the first note, extend it while the note arrives within the chord
window of the buffer start, otherwise flush (classify) into the bounded
chord history and start a new buffer. -/
def specChordStep (st : ChordState) (n : ℤ) (t : ℚ) : ChordState :=
  if st.buffer.isEmpty then { st with buffer := [n], bufferStart := t }
  else if t - st.bufferStart ≤ CHORD_WINDOW then { st with buffer := st.buffer ++ [n] }
  else
    { buffer := [n], bufferStart := t,
      history := takeLast 4 (st.history ++ [specClassifyChord st.buffer]) }

/-- Modelled from the spec: fold a `(pitch, timestamp)` event stream through
the chord accumulator from the empty state. -/
def specChordRun (events : List (ℤ × ℚ)) : ChordState :=
  events.foldl (fun st e => specChordStep st e.1 e.2) ⟨[], 0, []⟩

/-- Modelled from the spec: the roots of the last (at most 4) detected chords,
in order, skipping `null` entries. -/
def detectedRoots (st : ChordState) : List ℤ := (takeLast 4 st.history).filterMap id

/-- Boolean test that the first list is a prefix of the second. -/
def prefMatch : List ℤ → List ℤ → Bool
  | [], _ => true
  | _ :: _, [] => false
  | a :: as, b :: bs => decide (a = b) && prefMatch as bs

/-- Modelled from the spec: progression scoring of §4.5(b) — compare the
detected chord-root sequence against the canonical `PROGRESSIONS` table;
the first progression of which the root sequence is an exact prefix scores
`matched-prefix-length / progression-length`, and the score is 0 when the
root sequence is empty or matches no progression prefix. -/
def specProgressionScore (roots : List ℤ) : ℚ :=
  if roots = [] then 0
  else
    match PROGRESSIONS.find? (fun p => prefMatch roots p.2) with
    | some p => (roots.length : ℚ) / (p.2.length : ℚ)
    | none => 0

/-- Modelled from the spec: the harmonic-progression metric after an event
stream, per §4.5. -/
def specHarmonicProgression (events : List (ℤ × ℚ)) : ℚ :=
  specProgressionScore (detectedRoots (specChordRun events))

/-- 20 events on pitch 0 at a uniform 75 ms spacing. -/
def mashUniform : List NoteInput :=
  [⟨0, 0, 0.5⟩, ⟨0, 75, 0.5⟩, ⟨0, 150, 0.5⟩, ⟨0, 225, 0.5⟩, ⟨0, 300, 0.5⟩,
   ⟨0, 375, 0.5⟩, ⟨0, 450, 0.5⟩, ⟨0, 525, 0.5⟩, ⟨0, 600, 0.5⟩, ⟨0, 675, 0.5⟩,
   ⟨0, 750, 0.5⟩, ⟨0, 825, 0.5⟩, ⟨0, 900, 0.5⟩, ⟨0, 975, 0.5⟩, ⟨0, 1050, 0.5⟩,
   ⟨0, 1125, 0.5⟩, ⟨0, 1200, 0.5⟩, ⟨0, 1275, 0.5⟩, ⟨0, 1350, 0.5⟩, ⟨0, 1425, 0.5⟩]

/-- 20 events on pitch 0: eleven 75 ms gaps followed by alternating 98 ms and
52 ms gaps (inter-onset intervals all within [50, 100], mean exactly 75). -/
def mashSync : List NoteInput :=
  [⟨0, 0, 0.5⟩, ⟨0, 75, 0.5⟩, ⟨0, 150, 0.5⟩, ⟨0, 225, 0.5⟩, ⟨0, 300, 0.5⟩,
   ⟨0, 375, 0.5⟩, ⟨0, 450, 0.5⟩, ⟨0, 525, 0.5⟩, ⟨0, 600, 0.5⟩, ⟨0, 675, 0.5⟩,
   ⟨0, 750, 0.5⟩, ⟨0, 825, 0.5⟩, ⟨0, 923, 0.5⟩, ⟨0, 975, 0.5⟩, ⟨0, 1073, 0.5⟩,
   ⟨0, 1125, 0.5⟩, ⟨0, 1223, 0.5⟩, ⟨0, 1275, 0.5⟩, ⟨0, 1373, 0.5⟩, ⟨0, 1425, 0.5⟩]

/-- All six metric fields lie in `[0, 1]`. -/
def MetricsBounded (m : Metrics) : Prop :=
  0 ≤ m.melodicCoherence ∧ m.melodicCoherence ≤ 1 ∧
  0 ≤ m.harmonicProgression ∧ m.harmonicProgression ≤ 1 ∧
  0 ≤ m.rhythmicConsistency ∧ m.rhythmicConsistency ≤ 1 ∧
  0 ≤ m.scaleAdherence ∧ m.scaleAdherence ≤ 1 ∧
  0 ≤ m.phraseStructure ∧ m.phraseStructure ≤ 1 ∧
  0 ≤ m.dynamicVariation ∧ m.dynamicVariation ≤ 1

/-- All six metric fields and the aggregate score lie in `[0, 1]`. -/
def StateBounded (s : EngineState) : Prop :=
  MetricsBounded s.metrics ∧ 0 ≤ s.musicalityScore ∧ s.musicalityScore ≤ 1

/-! ### Basic lemmas -/

theorem ratSqrt_nonneg (q : ℚ) : 0 ≤ ratSqrt q := by
  simp only [ratSqrt]
  split
  · positivity
  · exact le_refl 0

theorem diffs_length {α : Type} [Sub α] (l : List α) : (diffs l).length = l.length - 1 := by
  induction l with
  | nil => simp [diffs]
  | cons x rest ih =>
    cases rest with
    | nil => simp [diffs]
    | cons y t => simp [diffs] at ih ⊢; omega

theorem diffs_pos_of_chain (l : List ℚ) (h : List.Chain' (· < ·) l) :
    ∀ d ∈ diffs l, 0 < d := by
  induction l with
  | nil => simp [diffs]
  | cons x rest ih =>
    cases rest with
    | nil => simp [diffs]
    | cons y t =>
      rw [List.chain'_cons] at h
      intro d hd
      simp only [diffs, List.mem_cons] at hd
      rcases hd with rfl | hd
      · linarith [h.1]
      · exact ih h.2 d hd

theorem takeLast_subset {α : Type} (n : Nat) (l : List α) : takeLast n l ⊆ l :=
  List.drop_subset _ _

theorem takeLast_length {α : Type} (n : Nat) (l : List α) :
    (takeLast n l).length = min n l.length := by
  simp [takeLast, List.length_drop]; omega

theorem takeLast_ne_nil {α : Type} (n : Nat) (l : List α) (hn : 0 < n) (hl : l ≠ []) :
    takeLast n l ≠ [] := by
  intro hcon
  have h1 := takeLast_length n l
  rw [hcon] at h1
  simp only [List.length_nil] at h1
  rcases Nat.min_eq_zero_iff.mp h1.symm with h | h
  · omega
  · exact hl (List.length_eq_zero.mp h)

theorem listMean_pos (l : List ℚ) (hne : l ≠ []) (hpos : ∀ x ∈ l, 0 < x) :
    0 < listMean l := by
  have hsum : 0 < l.sum := List.sum_pos l hpos hne
  have hlen : (0 : ℚ) < (l.length : ℚ) := by
    have : 0 < l.length := List.length_pos.mpr hne
    exact_mod_cast this
  exact div_pos hsum hlen

theorem listMean_le (l : List ℚ) (b : ℚ) (hne : l ≠ []) (hb : ∀ x ∈ l, x ≤ b) :
    listMean l ≤ b := by
  have hlen : (0 : ℚ) < (l.length : ℚ) := by
    have : 0 < l.length := List.length_pos.mpr hne
    exact_mod_cast this
  rw [listMean, div_le_iff₀ hlen]
  calc l.sum ≤ l.length • b := List.sum_le_card_nsmul l b hb
  _ = b * l.length := by rw [nsmul_eq_mul]; ring

theorem le_listMean (l : List ℚ) (a : ℚ) (hne : l ≠ []) (ha : ∀ x ∈ l, a ≤ x) :
    a ≤ listMean l := by
  have hlen : (0 : ℚ) < (l.length : ℚ) := by
    have : 0 < l.length := List.length_pos.mpr hne
    exact_mod_cast this
  rw [listMean, le_div_iff₀ hlen]
  calc a * l.length = l.length • a := by rw [nsmul_eq_mul]; ring
  _ ≤ l.sum := List.card_nsmul_le_sum l a ha

theorem foldl_inv {α β : Type} (P : α → Prop) (f : α → β → α) (init : α) (l : List β)
    (h0 : P init) (hstep : ∀ a b, P a → P (f a b)) : P (l.foldl f init) := by
  induction l generalizing init with
  | nil => exact h0
  | cons x rest ih => exact ih (f init x) (hstep init x h0)

theorem nodup_filter_length_le (pcs l2 : List ℤ) (hnd : pcs.Nodup) :
    ((pcs.filter (fun pc => decide (pc ∈ l2))).length) ≤ l2.length := by
  have hsub : pcs.filter (fun pc => decide (pc ∈ l2)) ⊆ l2 := by
    intro x hx
    have := List.of_mem_filter hx
    simpa using this
  have hnd2 : (pcs.filter (fun pc => decide (pc ∈ l2))).Nodup := hnd.filter _
  exact (hnd2.subperm hsub).length_le

theorem detectRhythmPatterns_nonneg (l : List ℚ) : 0 ≤ detectRhythmPatterns l := by
  simp only [detectRhythmPatterns]
  split
  · norm_num
  · simp only [le_min_iff]
    constructor
    · norm_num
    · split_ifs <;> norm_num

theorem detectRhythmPatterns_le_one (l : List ℚ) : detectRhythmPatterns l ≤ 1 := by
  simp only [detectRhythmPatterns]
  split
  · norm_num
  · exact min_le_left _ _

theorem variance_expr_nonneg (l : List ℚ) (a : ℚ) :
    0 ≤ ((l.map (fun i => (i - a) ^ 2)).sum) / (l.length : ℚ) := by
  apply div_nonneg
  · apply List.sum_nonneg
    intro x hx
    rcases List.mem_map.mp hx with ⟨i, _, rfl⟩
    positivity
  · positivity

theorem consistency_mem (x : ℚ) (hx : 0 ≤ x) :
    0 ≤ 1 - min 1 x ∧ 1 - min 1 x ≤ 1 := by
  constructor
  · have : min 1 x ≤ 1 := min_le_left _ _
    linarith
  · have : 0 ≤ min 1 x := le_min (by norm_num) hx
    linarith

set_option maxHeartbeats 1600000 in
theorem updateRhythmicConsistency_mem (f : ℚ → ℚ) (hf : ∀ q, 0 ≤ q → 0 ≤ f q)
    (th : List ℚ) (old : ℚ) (hold0 : 0 ≤ old) (hold1 : old ≤ 1)
    (hchain : List.Chain' (· < ·) th) :
    0 ≤ updateRhythmicConsistency f th old ∧ updateRhythmicConsistency f th old ≤ 1 := by
  simp only [updateRhythmicConsistency]
  split
  · exact ⟨hold0, hold1⟩
  · rename_i hlen
    have hlen2 : 2 ≤ th.length := by omega
    have hdne : takeLast 8 (diffs th) ≠ [] := by
      apply takeLast_ne_nil _ _ (by norm_num)
      intro hcon
      have := diffs_length (α := ℚ) th
      rw [hcon] at this
      simp at this
      omega
    have hdpos : ∀ d ∈ takeLast 8 (diffs th), 0 < d := fun d hd =>
      diffs_pos_of_chain th hchain d (takeLast_subset 8 (diffs th) hd)
    have havg : 0 < (takeLast 8 (diffs th)).sum / ((takeLast 8 (diffs th)).length : ℚ) :=
      listMean_pos _ hdne hdpos
    have hvar := variance_expr_nonneg (takeLast 8 (diffs th))
      ((takeLast 8 (diffs th)).sum / ((takeLast 8 (diffs th)).length : ℚ))
    have hstd : 0 ≤ f (((takeLast 8 (diffs th)).map (fun i =>
        (i - (takeLast 8 (diffs th)).sum / ((takeLast 8 (diffs th)).length : ℚ)) ^ 2)).sum /
        ((takeLast 8 (diffs th)).length : ℚ)) := hf _ (hvar)
    have hratio : 0 ≤ f (((takeLast 8 (diffs th)).map (fun i =>
        (i - (takeLast 8 (diffs th)).sum / ((takeLast 8 (diffs th)).length : ℚ)) ^ 2)).sum /
        ((takeLast 8 (diffs th)).length : ℚ)) /
        ((takeLast 8 (diffs th)).sum / ((takeLast 8 (diffs th)).length : ℚ)) :=
      div_nonneg hstd (le_of_lt havg)
    have hcons := consistency_mem _ hratio
    have hr0 := detectRhythmPatterns_nonneg (diffs th)
    have hr1 := detectRhythmPatterns_le_one (diffs th)
    set A := (takeLast 8 (diffs th)).sum / ((takeLast 8 (diffs th)).length : ℚ) with hA
    set V := ((takeLast 8 (diffs th)).map (fun i => (i - A) ^ 2)).sum /
      ((takeLast 8 (diffs th)).length : ℚ) with hV
    set R := detectRhythmPatterns (diffs th) with hR
    set C := 1 - min 1 (f V / A) with hC
    clear_value A V R C
    clear hA hV hR hC hdpos hchain hdne hvar hstd hf
    constructor <;>
    · split_ifs <;> nlinarith [hcons.1, hcons.2, hr0, hr1]

theorem updateRhythmicConsistency_le_045 (f : ℚ → ℚ) (hf : ∀ q, 0 ≤ q → 0 ≤ f q)
    (th : List ℚ) (old : ℚ) (hlen2 : 2 ≤ th.length)
    (h50 : 50 ≤ (takeLast 8 (diffs th)).sum / ((takeLast 8 (diffs th)).length : ℚ))
    (h100 : (takeLast 8 (diffs th)).sum / ((takeLast 8 (diffs th)).length : ℚ) ≤ 100) :
    updateRhythmicConsistency f th old ≤ 0.45 := by
  simp only [updateRhythmicConsistency]
  split
  · omega
  · have havg : 0 < (takeLast 8 (diffs th)).sum / ((takeLast 8 (diffs th)).length : ℚ) := by
      linarith
    have hvar := variance_expr_nonneg (takeLast 8 (diffs th))
      ((takeLast 8 (diffs th)).sum / ((takeLast 8 (diffs th)).length : ℚ))
    have hstd : 0 ≤ f (((takeLast 8 (diffs th)).map (fun i =>
        (i - (takeLast 8 (diffs th)).sum / ((takeLast 8 (diffs th)).length : ℚ)) ^ 2)).sum /
        ((takeLast 8 (diffs th)).length : ℚ)) := hf _ hvar
    have hratio : 0 ≤ f (((takeLast 8 (diffs th)).map (fun i =>
        (i - (takeLast 8 (diffs th)).sum / ((takeLast 8 (diffs th)).length : ℚ)) ^ 2)).sum /
        ((takeLast 8 (diffs th)).length : ℚ)) /
        ((takeLast 8 (diffs th)).sum / ((takeLast 8 (diffs th)).length : ℚ)) :=
      div_nonneg hstd (le_of_lt havg)
    have hcons := consistency_mem _ hratio
    have hr0 := detectRhythmPatterns_nonneg (diffs th)
    have hr1 := detectRhythmPatterns_le_one (diffs th)
    set A := (takeLast 8 (diffs th)).sum / ((takeLast 8 (diffs th)).length : ℚ) with hA
    set V := ((takeLast 8 (diffs th)).map (fun i => (i - A) ^ 2)).sum /
      ((takeLast 8 (diffs th)).length : ℚ) with hV
    set R := detectRhythmPatterns (diffs th) with hR
    set C := 1 - min 1 (f V / A) with hC
    clear_value A V R C
    clear hA hV hR hC hvar hstd hf
    split_ifs <;> nlinarith [hcons.1, hcons.2, hr0, hr1]

theorem updateMelodicCoherence_mem (nh : List ℤ) (old : ℚ) (h0 : 0 ≤ old) (h1 : old ≤ 1) :
    0 ≤ updateMelodicCoherence nh old ∧ updateMelodicCoherence nh old ≤ 1 := by
  simp only [updateMelodicCoherence]
  split
  · exact ⟨h0, h1⟩
  · exact ⟨le_max_left _ _, max_le (by norm_num) (min_le_left _ _)⟩

theorem bestScaleFold_snd_mem (pcs : List ℤ) :
    0 ≤ (bestScaleFold pcs).2 ∧ (bestScaleFold pcs).2 ≤ 1 := by
  rw [bestScaleFold]
  apply foldl_inv (fun acc : Option ScaleContext × ℚ => 0 ≤ acc.2 ∧ acc.2 ≤ 1)
  · exact ⟨le_refl 0, by norm_num⟩
  · intro a sc ha
    apply foldl_inv (fun acc : Option ScaleContext × ℚ => 0 ≤ acc.2 ∧ acc.2 ≤ 1) _ _ _ ha
    intro a2 root ha2
    dsimp only
    split
    · refine ⟨by positivity, ?_⟩
      apply div_le_one_of_le₀
      · exact_mod_cast List.length_filter_le _ pcs
      · positivity
    · exact ha2

theorem updateScaleAdherence_snd_mem (nh : List ℤ) (ctx : Option ScaleContext) (old : ℚ)
    (h0 : 0 ≤ old) (h1 : old ≤ 1) :
    0 ≤ (updateScaleAdherence nh ctx old).2 ∧ (updateScaleAdherence nh ctx old).2 ≤ 1 := by
  rw [updateScaleAdherence]
  split
  · exact ⟨h0, h1⟩
  · exact bestScaleFold_snd_mem _

theorem detectChordProgression_mem (notes : List ℤ) :
    0 ≤ detectChordProgression notes ∧ detectChordProgression notes ≤ 1 := by
  simp only [detectChordProgression]
  split
  · norm_num
  · apply foldl_inv (fun acc : ℚ => 0 ≤ acc ∧ acc ≤ 1)
    · exact ⟨le_refl 0, by norm_num⟩
    · intro a ch ha
      apply foldl_inv (fun acc : ℚ => 0 ≤ acc ∧ acc ≤ 1) _ _ _ ha
      intro a2 root ha2
      dsimp only
      split
      · refine ⟨le_max_of_le_left ha2.1, max_le ha2.2 ?_⟩
        apply div_le_one_of_le₀
        · exact_mod_cast nodup_filter_length_le _ _ (List.nodup_dedup _)
        · positivity
      · exact ha2

theorem updateHarmonicProgression_mem (nh : List ℤ) (old : ℚ) (h0 : 0 ≤ old) (h1 : old ≤ 1) :
    0 ≤ updateHarmonicProgression nh old ∧ updateHarmonicProgression nh old ≤ 1 := by
  rw [updateHarmonicProgression]
  split
  · exact ⟨h0, h1⟩
  · exact detectChordProgression_mem _

theorem updatePhraseStructure_mem (nh : List ℤ) (ctx : Option ScaleContext) (old : ℚ)
    (h0 : 0 ≤ old) (h1 : old ≤ 1) :
    0 ≤ updatePhraseStructure nh ctx old ∧ updatePhraseStructure nh ctx old ≤ 1 := by
  simp only [updatePhraseStructure]
  split
  · exact ⟨h0, h1⟩
  · refine ⟨le_min (by norm_num) ?_, min_le_left _ _⟩
    cases ctx
    all_goals dsimp only
    all_goals split_ifs <;> norm_num

theorem updateDynamicVariation_mem (v : ℚ) (hv0 : 0 ≤ v) (hv1 : v ≤ 1) :
    0 ≤ updateDynamicVariation v ∧ updateDynamicVariation v ≤ 1 := by
  rw [updateDynamicVariation]
  constructor <;> nlinarith

theorem metricsWeightedSum_mem (m : Metrics) (hm : MetricsBounded m) :
    0 ≤ metricsWeightedSum m ∧ metricsWeightedSum m ≤ 1 := by
  obtain ⟨a1, a2, b1, b2, c1, c2, d1, d2, e1, e2, g1, g2⟩ := hm
  rw [metricsWeightedSum]
  constructor <;> nlinarith

theorem calculatePenalties_multiplier_mem (nh : List ℤ) (th : List ℚ) (m : Metrics) :
    0 ≤ (calculatePenalties nh th m).multiplier ∧
    (calculatePenalties nh th m).multiplier ≤ 1 := by
  simp only [calculatePenalties]
  split_ifs <;> norm_num

theorem calculateMusicalityScore_mem (nh : List ℤ) (th : List ℚ) (m : Metrics)
    (hm : MetricsBounded m) :
    0 ≤ calculateMusicalityScore nh th m ∧ calculateMusicalityScore nh th m ≤ 1 := by
  have hw := metricsWeightedSum_mem m hm
  have hp := calculatePenalties_multiplier_mem nh th m
  simp only [calculateMusicalityScore]
  split
  · refine ⟨le_min (mul_nonneg hw.1 hp.1) (by norm_num), ?_⟩
    exact le_trans (min_le_right _ _) (by norm_num)
  · refine ⟨mul_nonneg hw.1 hp.1, ?_⟩
    nlinarith [hw.1, hw.2, hp.1, hp.2]

theorem calculateExcitementBoost_mem (q : ℚ) :
    0 ≤ calculateExcitementBoost q ∧ calculateExcitementBoost q ≤ 0.00492 * 1.15 := by
  simp only [calculateExcitementBoost]
  split_ifs with h1 h2
  · norm_num
  · norm_num
  · push_neg at h1 h2
    constructor <;> nlinarith

theorem processNote_state_bounded (f : ℚ → ℚ) (hf : ∀ q, 0 ≤ q → 0 ≤ f q)
    (s : EngineState) (n : ℤ) (t : ℚ) (v : ℚ) (hs : StateBounded s)
    (hchain : List.Chain' (· < ·) (s.timeHistory ++ [t])) (hv0 : 0 ≤ v) (hv1 : v ≤ 1) :
    StateBounded (processNote f s n t v).1 := by
  obtain ⟨⟨a1, a2, b1, b2, c1, c2, d1, d2, e1, e2, g1, g2⟩, _, _⟩ := hs
  have hchain2 : List.Chain' (· < ·)
      (if 32 < (s.noteHistory ++ [n]).length then (s.timeHistory ++ [t]).tail
       else s.timeHistory ++ [t]) := by
    split
    · exact hchain.tail
    · exact hchain
  have hrb := updateRhythmicConsistency_mem f hf
    (if 32 < (s.noteHistory ++ [n]).length then (s.timeHistory ++ [t]).tail
     else s.timeHistory ++ [t]) s.metrics.rhythmicConsistency c1 c2 hchain2
  have hmb := updateMelodicCoherence_mem
    (if 32 < (s.noteHistory ++ [n]).length then (s.noteHistory ++ [n]).tail
     else s.noteHistory ++ [n]) s.metrics.melodicCoherence a1 a2
  have hsb := updateScaleAdherence_snd_mem
    (if 32 < (s.noteHistory ++ [n]).length then (s.noteHistory ++ [n]).tail
     else s.noteHistory ++ [n]) s.scaleContext s.metrics.scaleAdherence d1 d2
  have hhb := updateHarmonicProgression_mem
    (if 32 < (s.noteHistory ++ [n]).length then (s.noteHistory ++ [n]).tail
     else s.noteHistory ++ [n]) s.metrics.harmonicProgression b1 b2
  have hpb := updatePhraseStructure_mem
    (if 32 < (s.noteHistory ++ [n]).length then (s.noteHistory ++ [n]).tail
     else s.noteHistory ++ [n])
    (updateScaleAdherence
      (if 32 < (s.noteHistory ++ [n]).length then (s.noteHistory ++ [n]).tail
       else s.noteHistory ++ [n]) s.scaleContext s.metrics.scaleAdherence).1
    s.metrics.phraseStructure e1 e2
  have hdb := updateDynamicVariation_mem v hv0 hv1
  have hmet : MetricsBounded (processNote f s n t v).1.metrics := by
    exact ⟨hmb.1, hmb.2, hhb.1, hhb.2, hrb.1, hrb.2, hsb.1, hsb.2, hpb.1, hpb.2,
      hdb.1, hdb.2⟩
  have hsc := calculateMusicalityScore_mem
    (if 32 < (s.noteHistory ++ [n]).length then (s.noteHistory ++ [n]).tail
     else s.noteHistory ++ [n])
    (if 32 < (s.noteHistory ++ [n]).length then (s.timeHistory ++ [t]).tail
     else s.timeHistory ++ [t])
    (processNote f s n t v).1.metrics hmet
  exact ⟨hmet, hsc.1, hsc.2⟩

theorem initState_bounded : StateBounded initState := by
  refine ⟨⟨?_, ?_, ?_, ?_, ?_, ?_, ?_, ?_, ?_, ?_, ?_, ?_⟩, ?_, ?_⟩ <;> norm_num [initState]

theorem tail_append_ne {α : Type} (l1 l2 : List α) (h : l1 ≠ []) :
    l1.tail ++ l2 = (l1 ++ l2).tail := by
  cases l1 with
  | nil => exact absurd rfl h
  | cons x xs => simp

theorem runEngine_bounded (f : ℚ → ℚ) (hf : ∀ q, 0 ≤ q → 0 ≤ f q) (inputs : List NoteInput)
    (s : EngineState) (hs : StateBounded s)
    (hchain : List.Chain' (· < ·) (s.timeHistory ++ inputs.map (fun e => e.timestamp)))
    (hv : ∀ e ∈ inputs, 0 ≤ e.velocity ∧ e.velocity ≤ 1) :
    StateBounded (runEngine f s inputs) := by
  induction inputs generalizing s with
  | nil => exact hs
  | cons e rest ih =>
    rw [runEngine]
    have hrw : s.timeHistory ++ (e :: rest).map (fun x => x.timestamp) =
        (s.timeHistory ++ [e.timestamp]) ++ rest.map (fun x => x.timestamp) := by simp
    rw [hrw] at hchain
    have h1 : List.Chain' (· < ·) (s.timeHistory ++ [e.timestamp]) :=
      (List.chain'_append.mp hchain).1
    apply ih
    · exact processNote_state_bounded f hf s e.noteIndex e.timestamp e.velocity hs h1
        (hv e (List.mem_cons_self _ _)).1 (hv e (List.mem_cons_self _ _)).2
    · have hth : (processNote f s e.noteIndex e.timestamp e.velocity).1.timeHistory =
        (if 32 < (s.noteHistory ++ [e.noteIndex]).length then (s.timeHistory ++ [e.timestamp]).tail
         else s.timeHistory ++ [e.timestamp]) := rfl
      rw [hth]
      split
      · rw [tail_append_ne _ _ (by simp)]
        exact hchain.tail
      · exact hchain
    · intro e2 he2
      exact hv e2 (List.mem_cons_of_mem _ he2)

theorem processNote_histories_short (f : ℚ → ℚ) (s : EngineState) (n : ℤ) (t v : ℚ)
    (h : s.noteHistory.length < 32) :
    (processNote f s n t v).1.noteHistory = s.noteHistory ++ [n] ∧
    (processNote f s n t v).1.timeHistory = s.timeHistory ++ [t] := by
  have hlen : ¬ 32 < (s.noteHistory ++ [n]).length := by
    simp only [List.length_append, List.length_cons, List.length_nil]
    omega
  constructor
  · show (if 32 < (s.noteHistory ++ [n]).length then (s.noteHistory ++ [n]).tail
      else s.noteHistory ++ [n]) = s.noteHistory ++ [n]
    exact if_neg hlen
  · show (if 32 < (s.noteHistory ++ [n]).length then (s.timeHistory ++ [t]).tail
      else s.timeHistory ++ [t]) = s.timeHistory ++ [t]
    exact if_neg hlen

theorem runEngine_histories (f : ℚ → ℚ) (inputs : List NoteInput) (s : EngineState)
    (h : s.noteHistory.length + inputs.length ≤ 32) :
    (runEngine f s inputs).noteHistory = s.noteHistory ++ inputs.map (fun e => e.noteIndex) ∧
    (runEngine f s inputs).timeHistory = s.timeHistory ++ inputs.map (fun e => e.timestamp) := by
  induction inputs generalizing s with
  | nil => simp [runEngine]
  | cons e rest ih =>
    rw [runEngine]
    have hlt : s.noteHistory.length < 32 := by
      simp only [List.length_cons] at h
      omega
    have hps := processNote_histories_short f s e.noteIndex e.timestamp e.velocity hlt
    have ihr := ih (processNote f s e.noteIndex e.timestamp e.velocity).1 (by
      rw [hps.1]
      simp only [List.length_append, List.length_cons, List.length_nil] at h ⊢
      omega)
    constructor
    · rw [ihr.1, hps.1]
      simp
    · rw [ihr.2, hps.2]
      simp

theorem runEngine_last_rhythmic (f : ℚ → ℚ) (s : EngineState) (e : NoteInput)
    (inputs : List NoteInput) :
    ∃ old, (runEngine f s (e :: inputs)).metrics.rhythmicConsistency =
      updateRhythmicConsistency f (runEngine f s (e :: inputs)).timeHistory old := by
  induction inputs generalizing s e with
  | nil => exact ⟨s.metrics.rhythmicConsistency, rfl⟩
  | cons e2 rest ih =>
    rw [runEngine]
    exact ih _ _

theorem runEngine_last_melodic (f : ℚ → ℚ) (s : EngineState) (e : NoteInput)
    (inputs : List NoteInput) :
    ∃ old, (runEngine f s (e :: inputs)).metrics.melodicCoherence =
      updateMelodicCoherence (runEngine f s (e :: inputs)).noteHistory old := by
  induction inputs generalizing s e with
  | nil => exact ⟨s.metrics.melodicCoherence, rfl⟩
  | cons e2 rest ih =>
    rw [runEngine]
    exact ih _ _

/-! ### Claim theorems -/

theorem reset_eq_initState (s : EngineState) : reset s = initState := rfl

/-- C9: running any prior sequence `t`, calling `reset()`, then replaying a
sequence `s` yields exactly the same sequence of `{score, metrics,
excitement}` results as a freshly constructed engine processing `s`. -/
theorem reset_then_replay_eq_fresh (f : ℚ → ℚ) (t s : List NoteInput) :
    runResults f (reset (runEngine f initState t)) s = runResults f initState s := by
  rw [reset_eq_initState]

/-- C10: for every engine state (reachable or not) and every `processNote`
call, the returned excitement lies in `[0, 0.00492 · 1.15]`; in particular it
is never negative, no matter how far the score falls. -/
theorem excitement_within_bounds (f : ℚ → ℚ) (s : EngineState) (n : ℤ) (t v : ℚ) :
    0 ≤ (processNote f s n t v).2.excitement ∧
    (processNote f s n t v).2.excitement ≤ 0.00492 * 1.15 := by
  have h : (processNote f s n t v).2.excitement =
      calculateExcitementBoost (processNote f s n t v).2.score := rfl
  rw [h]
  exact calculateExcitementBoost_mem _

/-- C3: the code path of `processNote` contains no input-validation branch at
all — for every fresh engine and every argument triple the event is ingested
(the histories are mutated), so a non-finite timestamp or velocity is
absorbed rather than rejected atomically. -/
theorem processNote_never_rejects (f : ℚ → ℚ) (n : ℤ) (t v : ℚ) :
    (processNote f initState n t v).1.noteHistory = [n] ∧
    (processNote f initState n t v).1.timeHistory = [t] ∧
    (processNote f initState n t v).1 ≠ initState := by
  have h := processNote_histories_short f initState n t v (by simp [initState])
  refine ⟨?_, ?_, ?_⟩
  · rw [h.1]
    simp [initState]
  · rw [h.2]
    simp [initState]
  · intro hcon
    have h1 := h.1
    rw [hcon] at h1
    simp [initState] at h1

/-- C5 (amended): the rhythmicConsistency metric returned by the first
`processNote` call on a fresh engine is `0` (only one timestamp exists); from
the second call onward the metric is computed from the single available
inter-onset interval and need not be `0`. -/
theorem first_call_rhythmic_zero (f : ℚ → ℚ) (n : ℤ) (t v : ℚ) :
    (processNote f initState n t v).2.metrics.rhythmicConsistency = 0 := rfl

/-- C5 counterexample: on a fresh engine the second `processNote` call (notes
at 0 ms and 500 ms) already returns rhythmicConsistency `0.7`, not `0` — the
code only guards `timeHistory.length < 2`, so a single inter-onset interval
is enough to produce a nonzero metric. -/
theorem second_call_rhythmic_nonzero :
    (runEngine ratSqrt initState [⟨0, 0, 0.5⟩, ⟨0, 500, 0.5⟩]).metrics.rhythmicConsistency
      = 0.7 ∧
    ¬((runEngine ratSqrt initState [⟨0, 0, 0.5⟩, ⟨0, 500, 0.5⟩]).metrics.rhythmicConsistency
      = 0) := by
  have h : (runEngine ratSqrt initState
      [⟨0, 0, 0.5⟩, ⟨0, 500, 0.5⟩]).metrics.rhythmicConsistency = 0.7 := by
    norm_num [runEngine, processNote, initState, updateRhythmicConsistency,
      updateMelodicCoherence, updateScaleAdherence, updateHarmonicProgression,
      updatePhraseStructure, updateDynamicVariation, calculateMusicalityScore,
      calculatePenalties, detectRandomPlaying, detectRepeatingPatterns,
      detectScalePatterns, metricsWeightedSum, metricsTotal, calculateExcitementBoost,
      detectRhythmPatterns, bestScaleFold, pitchClasses, detectChordProgression,
      diffs, takeLast, listMean, calculateVariance, ratSqrt, analyzeMelodicContour,
      directionChangesAux, List.enum, List.enumFrom, abs_of_nonneg, abs_of_nonpos]
  exact ⟨h, by rw [h]; norm_num⟩

/-- C2 counterexample: boundedness fails for unrestricted finite inputs.  A
single call with velocity `2` yields `dynamicVariation = 1.25 > 1`, and a
three-call sequence whose timestamps decrease at the end
(`0, 1000, -1`) yields `rhythmicConsistency = 300.3 > 1`. -/
theorem metrics_bounds_violation :
    (processNote ratSqrt initState 0 0 2).2.metrics.dynamicVariation = 5 / 4 ∧
    ¬((processNote ratSqrt initState 0 0 2).2.metrics.dynamicVariation ≤ 1) ∧
    1 < (runEngine ratSqrt initState
      [⟨0, 0, 0.5⟩, ⟨0, 1000, 0.5⟩, ⟨0, -1, 0.5⟩]).metrics.rhythmicConsistency := by
  have h1 : (processNote ratSqrt initState 0 0 2).2.metrics.dynamicVariation = 5 / 4 := by
    have : (processNote ratSqrt initState 0 0 2).2.metrics.dynamicVariation =
        updateDynamicVariation 2 := rfl
    rw [this, updateDynamicVariation]
    norm_num
  have hh := runEngine_histories ratSqrt
    [⟨0, 0, 0.5⟩, ⟨0, 1000, 0.5⟩, ⟨0, -1, 0.5⟩] initState (by simp [initState])
  obtain ⟨old, hlast⟩ := runEngine_last_rhythmic ratSqrt initState
    ⟨0, 0, 0.5⟩ [⟨0, 1000, 0.5⟩, ⟨0, -1, 0.5⟩]
  have h2 : (runEngine ratSqrt initState
      [⟨0, 0, 0.5⟩, ⟨0, 1000, 0.5⟩, ⟨0, -1, 0.5⟩]).metrics.rhythmicConsistency
      = 3003 / 10 := by
    rw [hlast, hh.2]
    norm_num [initState, updateRhythmicConsistency, diffs, takeLast, listMean,
      detectRhythmPatterns, ratSqrt, List.enum, List.enumFrom,
      abs_of_nonneg, abs_of_nonpos]
  refine ⟨h1, by rw [h1]; norm_num, by rw [h2]; norm_num⟩

/-- C2 (amended): for input sequences with strictly increasing timestamps and
velocities in `[0, 1]`, after each call all six metrics and the aggregate
musicality score lie within `[0, 1]` (for any nonnegative square-root
function). -/
theorem metrics_bounded_after_each_call (f : ℚ → ℚ) (hf : ∀ q, 0 ≤ q → 0 ≤ f q)
    (inputs : List NoteInput)
    (hchain : List.Chain' (· < ·) (inputs.map (fun e => e.timestamp)))
    (hv : ∀ e ∈ inputs, 0 ≤ e.velocity ∧ e.velocity ≤ 1) (k : Nat) :
    StateBounded (runEngine f initState (inputs.take k)) := by
  apply runEngine_bounded f hf _ _ initState_bounded
  · show List.Chain' (· < ·) (([] : List ℚ) ++ (inputs.take k).map (fun e => e.timestamp))
    rw [List.nil_append, List.map_take]
    exact hchain.take k
  · intro e he
    exact hv e (List.take_subset k inputs he)

/-- C2 witness: a concrete two-event run with valid velocities and increasing
timestamps is bounded. -/
theorem metrics_bounded_after_each_call_witness :
    StateBounded (runEngine ratSqrt initState ([⟨0, 0, 0.5⟩, ⟨2, 400, 0.5⟩].take 2)) := by
  apply metrics_bounded_after_each_call ratSqrt (fun q _ => ratSqrt_nonneg q)
  · simp only [List.map_cons, List.map_nil, List.chain'_cons, List.chain'_singleton]
    norm_num
  · intro e he
    simp only [List.mem_cons, List.not_mem_nil, or_false] at he
    rcases he with rfl | rfl <;> norm_num

/-- C4 (amended): the very first `processNote` call on a fresh engine returns
`rhythmicConsistency = 0`, `melodicCoherence = 0` and excitement `0` for every
finite pitch index and timestamp and every velocity in `[0, 1]` (the first two
equalities hold for every velocity; the zero excitement needs the velocity
range, since the excitement is derived from the score, which grows with the
velocity-driven dynamicVariation metric). -/
theorem cold_start_zeroes (f : ℚ → ℚ) (n : ℤ) (t v : ℚ) (hv0 : 0 ≤ v) (hv1 : v ≤ 1) :
    (processNote f initState n t v).2.metrics.rhythmicConsistency = 0 ∧
    (processNote f initState n t v).2.metrics.melodicCoherence = 0 ∧
    (processNote f initState n t v).2.excitement = 0 := by
  refine ⟨rfl, rfl, ?_⟩
  have hex : (processNote f initState n t v).2.excitement =
      calculateExcitementBoost ((processNote f initState n t v).2.score) := rfl
  have hsc : (processNote f initState n t v).2.score =
      calculateMusicalityScore [n] [t] ⟨0, 0, 0, 0, 0, updateDynamicVariation v⟩ := rfl
  have hdyn0 : 0 ≤ updateDynamicVariation v := by
    rw [updateDynamicVariation]; nlinarith
  have hdyn1 : updateDynamicVariation v ≤ 0.75 := by
    rw [updateDynamicVariation]; nlinarith
  have hbase0 : 0 ≤ metricsWeightedSum ⟨0, 0, 0, 0, 0, updateDynamicVariation v⟩ := by
    rw [metricsWeightedSum]; dsimp only; nlinarith
  have hbase1 : metricsWeightedSum ⟨0, 0, 0, 0, 0, updateDynamicVariation v⟩ ≤ 0.0375 := by
    rw [metricsWeightedSum]; dsimp only; nlinarith
  have hmult := calculatePenalties_multiplier_mem [n] [t]
    ⟨0, 0, 0, 0, 0, updateDynamicVariation v⟩
  have hlt : calculateMusicalityScore [n] [t] ⟨0, 0, 0, 0, 0, updateDynamicVariation v⟩
      < 0.3 := by
    simp only [calculateMusicalityScore]
    split
    · exact lt_of_le_of_lt (min_le_right _ _) (by norm_num)
    · nlinarith [hmult.1, hmult.2]
  rw [hex, hsc]
  simp only [calculateExcitementBoost]
  rw [if_neg (by linarith), if_pos hlt]
  norm_num

/-- C4 witness: concrete first call at pitch 0, time 0, velocity 0.5. -/
theorem cold_start_zeroes_witness :
    (processNote ratSqrt initState 0 0 0.5).2.metrics.rhythmicConsistency = 0 ∧
    (processNote ratSqrt initState 0 0 0.5).2.metrics.melodicCoherence = 0 ∧
    (processNote ratSqrt initState 0 0 0.5).2.excitement = 0 :=
  cold_start_zeroes ratSqrt 0 0 0.5 (by norm_num) (by norm_num)

/-- C4 counterexample: the claim quantifies over every finite velocity, but at
velocity `20` the very first call already returns a strictly positive
excitement (`5043/2000000`), because `dynamicVariation = 10.25` pushes the
score to `0.5125 ≥ 0.3`. -/
theorem cold_start_excitement_nonzero :
    (processNote ratSqrt initState 0 0 20).2.excitement = 5043 / 2000000 ∧
    ¬((processNote ratSqrt initState 0 0 20).2.excitement = 0) := by
  have h : (processNote ratSqrt initState 0 0 20).2.excitement = 5043 / 2000000 := by
    norm_num [processNote, initState, updateRhythmicConsistency,
      updateMelodicCoherence, updateScaleAdherence, updateHarmonicProgression,
      updatePhraseStructure, updateDynamicVariation, calculateMusicalityScore,
      calculatePenalties, detectRandomPlaying, detectRepeatingPatterns,
      detectScalePatterns, metricsWeightedSum, metricsTotal, calculateExcitementBoost,
      detectRhythmPatterns, bestScaleFold, pitchClasses, detectChordProgression,
      diffs, takeLast, listMean, calculateVariance, ratSqrt, analyzeMelodicContour,
      directionChangesAux, List.enum, List.enumFrom, abs_of_nonneg, abs_of_nonpos]
  exact ⟨h, by rw [h]; norm_num⟩

/-- C6 (amended): for every sequence of 20 `processNote` calls on a fresh
engine whose pitch indices lie in `[0, 16]` and whose inter-onset intervals
each lie in `[50, 100]` milliseconds, the rhythmicConsistency metric returned
by the final call is at most `0.45` (the fast-tempo penalty caps the
steadiness component at `0.3`, but the rhythm-pattern component can add up to
`0.3` more, so the claimed strict `0.3` bound fails). -/
theorem mashing_rhythmic_le (f : ℚ → ℚ) (hf : ∀ q, 0 ≤ q → 0 ≤ f q)
    (inputs : List NoteInput) (hlen : inputs.length = 20)
    (hpitch : ∀ e ∈ inputs, 0 ≤ e.noteIndex ∧ e.noteIndex ≤ 16)
    (hioi : ∀ d ∈ diffs (inputs.map (fun e => e.timestamp)), 50 ≤ d ∧ d ≤ 100) :
    (runEngine f initState inputs).metrics.rhythmicConsistency ≤ 0.45 := by
  have hh := runEngine_histories f inputs initState (by simp [initState, hlen])
  cases inputs with
  | nil => simp at hlen
  | cons e rest =>
    obtain ⟨old, hlast⟩ := runEngine_last_rhythmic f initState e rest
    rw [hlast, hh.2]
    have hth : initState.timeHistory ++ (e :: rest).map (fun x => x.timestamp) =
        (e :: rest).map (fun x => x.timestamp) := by simp [initState]
    rw [hth]
    have hlen2 : 2 ≤ ((e :: rest).map (fun x => x.timestamp)).length := by
      rw [List.length_map, hlen]
      norm_num
    have hdne : takeLast 8 (diffs ((e :: rest).map (fun x => x.timestamp))) ≠ [] := by
      apply takeLast_ne_nil _ _ (by norm_num)
      intro hcon
      have := diffs_length (α := ℚ) ((e :: rest).map (fun x => x.timestamp))
      rw [hcon] at this
      simp only [List.length_nil, List.length_map, List.length_cons] at this
      simp only [List.length_cons] at hlen
      omega
    have hmem : ∀ d ∈ takeLast 8 (diffs ((e :: rest).map (fun x => x.timestamp))),
        50 ≤ d ∧ d ≤ 100 := fun d hd => hioi d (takeLast_subset _ _ hd)
    have h50 : 50 ≤ listMean (takeLast 8 (diffs ((e :: rest).map (fun x => x.timestamp)))) :=
      le_listMean _ _ hdne (fun x hx => (hmem x hx).1)
    have h100 : listMean (takeLast 8 (diffs ((e :: rest).map (fun x => x.timestamp)))) ≤ 100 :=
      listMean_le _ _ hdne (fun x hx => (hmem x hx).2)
    exact updateRhythmicConsistency_le_045 f hf _ old hlen2 h50 h100

/-- C6 witness: 20 notes on pitch 0 with uniform 75 ms inter-onset intervals. -/
theorem mashing_rhythmic_le_witness :
    (runEngine ratSqrt initState mashUniform).metrics.rhythmicConsistency ≤ 0.45 := by
  apply mashing_rhythmic_le ratSqrt (fun q _ => ratSqrt_nonneg q)
  · rfl
  · intro e he
    simp only [mashUniform, List.mem_cons, List.not_mem_nil, or_false] at he
    rcases he with rfl | rfl | rfl | rfl | rfl | rfl | rfl | rfl | rfl | rfl | rfl | rfl |
      rfl | rfl | rfl | rfl | rfl | rfl | rfl | rfl <;> norm_num
  · intro d hd
    simp only [mashUniform, List.map_cons, List.map_nil, diffs, List.mem_cons,
      List.not_mem_nil, or_false] at hd
    rcases hd with rfl | rfl | rfl | rfl | rfl | rfl | rfl | rfl | rfl | rfl | rfl | rfl |
      rfl | rfl | rfl | rfl | rfl | rfl | rfl <;> norm_num

/-- C6 counterexample: the `mashSync` run satisfies every hypothesis of the
claim — 20 calls, pitch indices in `[0, 16]`, all 19 inter-onset intervals in
`[50, 100]` ms with mean exactly 75 ms — yet the final rhythmicConsistency is
`0.314`, not strictly below `0.3`: the last four intervals
`98, 52, 98, 52` trip the syncopation pattern bonus (`+0.7·0.3`). -/
theorem mashing_rhythmic_violation :
    mashSync.length = 20 ∧
    (∀ e ∈ mashSync, 0 ≤ e.noteIndex ∧ e.noteIndex ≤ 16) ∧
    (∀ d ∈ diffs (mashSync.map (fun e => e.timestamp)), 50 ≤ d ∧ d ≤ 100) ∧
    listMean (diffs (mashSync.map (fun e => e.timestamp))) = 75 ∧
    (runEngine ratSqrt initState mashSync).metrics.rhythmicConsistency = 157 / 500 ∧
    ¬((runEngine ratSqrt initState mashSync).metrics.rhythmicConsistency < 0.3) := by
  have hh := runEngine_histories ratSqrt mashSync initState (by simp [initState, mashSync])
  have hmetric : (runEngine ratSqrt initState mashSync).metrics.rhythmicConsistency
      = 157 / 500 := by
    rw [show mashSync = ⟨0, 0, 0.5⟩ :: mashSync.tail from rfl]
    obtain ⟨old, hlast⟩ := runEngine_last_rhythmic ratSqrt initState ⟨0, 0, 0.5⟩ mashSync.tail
    rw [hlast]
    rw [show (⟨0, 0, 0.5⟩ : NoteInput) :: mashSync.tail = mashSync from rfl]
    rw [hh.2]
    norm_num [initState, mashSync, updateRhythmicConsistency, diffs, takeLast, listMean,
      detectRhythmPatterns, ratSqrt, List.enum, List.enumFrom,
      abs_of_nonneg, abs_of_nonpos]
  refine ⟨rfl, ?_, ?_, ?_, hmetric, by rw [hmetric]; norm_num⟩
  · intro e he
    simp only [mashSync, List.mem_cons, List.not_mem_nil, or_false] at he
    rcases he with rfl | rfl | rfl | rfl | rfl | rfl | rfl | rfl | rfl | rfl | rfl | rfl |
      rfl | rfl | rfl | rfl | rfl | rfl | rfl | rfl <;> norm_num
  · intro d hd
    simp only [mashSync, List.map_cons, List.map_nil, diffs, List.mem_cons,
      List.not_mem_nil, or_false] at hd
    rcases hd with rfl | rfl | rfl | rfl | rfl | rfl | rfl | rfl | rfl | rfl | rfl | rfl |
      rfl | rfl | rfl | rfl | rfl | rfl | rfl <;> norm_num
  · norm_num [mashSync, diffs, listMean]

theorem replicate_eight (p : ℤ) :
    List.replicate 8 p = [p, p, p, p, p, p, p, p] := by
  simp [List.replicate]

theorem updateMelodicCoherence_replicate (p : ℤ) (old : ℚ) :
    updateMelodicCoherence (List.replicate 8 p) old = 0 := by
  rw [replicate_eight]
  norm_num [updateMelodicCoherence, takeLast, diffs, analyzeMelodicContour,
    directionChangesAux, min_def, max_def]

/-- C7: feeding the same pitch index `p` eight times through `processNote` at
any strictly increasing timestamps yields melodicCoherence at most `0.3`
(in fact exactly `0`) on the eighth call. -/
theorem repetition_melodic_le (f : ℚ → ℚ) (p : ℤ) (inputs : List NoteInput)
    (hlen : inputs.length = 8) (hsame : ∀ e ∈ inputs, e.noteIndex = p)
    (hchain : List.Chain' (· < ·) (inputs.map (fun e => e.timestamp))) :
    (runEngine f initState inputs).metrics.melodicCoherence ≤ 0.3 := by
  have hh := runEngine_histories f inputs initState (by simp [initState, hlen])
  cases inputs with
  | nil => simp at hlen
  | cons e rest =>
    obtain ⟨old, hlast⟩ := runEngine_last_melodic f initState e rest
    rw [hlast, hh.1]
    have hrep : initState.noteHistory ++ (e :: rest).map (fun x => x.noteIndex) =
        List.replicate 8 p := by
      rw [show initState.noteHistory = ([] : List ℤ) from rfl, List.nil_append]
      apply List.eq_replicate_iff.mpr
      refine ⟨by rw [List.length_map, hlen], ?_⟩
      intro b hb
      rcases List.mem_map.mp hb with ⟨x, hx, rfl⟩
      exact hsame x hx
    rw [hrep, updateMelodicCoherence_replicate]
    norm_num

/-- C7 witness: pitch 5 played eight times at 400 ms spacing. -/
theorem repetition_melodic_le_witness :
    (runEngine ratSqrt initState
      [⟨5, 0, 0.5⟩, ⟨5, 400, 0.5⟩, ⟨5, 800, 0.5⟩, ⟨5, 1200, 0.5⟩, ⟨5, 1600, 0.5⟩,
       ⟨5, 2000, 0.5⟩, ⟨5, 2400, 0.5⟩, ⟨5, 2800, 0.5⟩]).metrics.melodicCoherence ≤ 0.3 := by
  apply repetition_melodic_le ratSqrt 5
  · rfl
  · intro e he
    simp only [List.mem_cons, List.not_mem_nil, or_false] at he
    rcases he with rfl | rfl | rfl | rfl | rfl | rfl | rfl | rfl <;> rfl
  · simp only [List.map_cons, List.map_nil, List.chain'_cons, List.chain'_singleton]
    norm_num

/-- C1 (amended, modelled from the spec): the EMA excitement driver seeds on
the first event (returning delta 0), afterwards computes
`delta = score − ema` against the pre-update baseline, updates
`ema ← alpha·score + (1−alpha)·ema`, and — for decay constant below boost
constant — emits a positive increment `boostPos·delta` when `delta > 0` and a
nonpositive increment `boostNeg·delta` when `delta ≤ 0`: strictly negative
and of smaller magnitude than `boostPos·|delta|` when `delta < 0`, and
exactly `0` when `delta = 0`. -/
theorem ema_driver_behaviour (alpha bp bn e s : ℚ) (hbn : 0 < bn) (hbp : bn < bp) :
    emaStep alpha bp bn none s = (some s, 0) ∧
    (emaStep alpha bp bn (some e) s).1 = some (alpha * s + (1 - alpha) * e) ∧
    (emaStep alpha bp bn (some e) s).2 =
      (if 0 < s - e then bp * (s - e) else bn * (s - e)) ∧
    (0 < s - e → 0 < (emaStep alpha bp bn (some e) s).2) ∧
    (s - e < 0 → (emaStep alpha bp bn (some e) s).2 < 0 ∧
      |(emaStep alpha bp bn (some e) s).2| < bp * |s - e|) ∧
    (s - e = 0 → (emaStep alpha bp bn (some e) s).2 = 0) := by
  refine ⟨rfl, rfl, rfl, ?_, ?_, ?_⟩
  · intro hd
    show 0 < (if 0 < s - e then bp * (s - e) else bn * (s - e))
    rw [if_pos hd]
    exact mul_pos (lt_trans hbn hbp) hd
  · intro hd
    have hni : ¬(0 < s - e) := by linarith
    constructor
    · show (if 0 < s - e then bp * (s - e) else bn * (s - e)) < 0
      rw [if_neg hni]
      exact mul_neg_of_pos_of_neg hbn hd
    · show |if 0 < s - e then bp * (s - e) else bn * (s - e)| < bp * |s - e|
      rw [if_neg hni, abs_mul, abs_of_pos hbn, abs_of_neg hd]
      have : 0 < -(s - e) := by linarith
      nlinarith
  · intro hd
    show (if 0 < s - e then bp * (s - e) else bn * (s - e)) = 0
    rw [hd]
    norm_num

/-- C1 witness: the driver instantiated at `alpha = 0.1`, `boostPos = 0.05`,
`boostNeg = 0.01`, baseline `0.2`, score `0.6`. -/
theorem ema_driver_behaviour_witness :
    (0 : ℚ) < 0.01 ∧ (0.01 : ℚ) < 0.05 ∧
    (emaStep 0.1 0.05 0.01 none 0.6 = (some 0.6, 0) ∧
     (emaStep 0.1 0.05 0.01 (some 0.2) 0.6).1 = some (0.1 * 0.6 + (1 - 0.1) * 0.2) ∧
     (emaStep 0.1 0.05 0.01 (some 0.2) 0.6).2 =
       (if 0 < (0.6 : ℚ) - 0.2 then 0.05 * ((0.6 : ℚ) - 0.2)
        else 0.01 * ((0.6 : ℚ) - 0.2)) ∧
     (0 < (0.6 : ℚ) - 0.2 → 0 < (emaStep 0.1 0.05 0.01 (some 0.2) 0.6).2) ∧
     ((0.6 : ℚ) - 0.2 < 0 → (emaStep 0.1 0.05 0.01 (some 0.2) 0.6).2 < 0 ∧
       |(emaStep 0.1 0.05 0.01 (some 0.2) 0.6).2| < 0.05 * |(0.6 : ℚ) - 0.2|) ∧
     ((0.6 : ℚ) - 0.2 = 0 → (emaStep 0.1 0.05 0.01 (some 0.2) 0.6).2 = 0)) :=
  ⟨by norm_num, by norm_num,
   ema_driver_behaviour 0.1 0.05 0.01 0.2 0.6 (by norm_num) (by norm_num)⟩

/-- C1 counterexample: in the spec-modelled driver, an event whose score
equals the current EMA baseline (`delta = 0`, which the claim covers under
"delta ≤ 0") yields increment `0`, which is not negative — the claim's
"negative increment whenever delta ≤ 0" fails at `delta = 0`. -/
theorem ema_delta_zero_not_negative :
    emaStep 0.1 0.05 0.01 (some 0.5) 0.5 = (some 0.5, 0) ∧
    ¬((emaStep 0.1 0.05 0.01 (some 0.5) 0.5).2 < 0) := by
  constructor
  · show (some (0.1 * 0.5 + (1 - 0.1) * 0.5),
      if 0 < (0.5 : ℚ) - 0.5 then 0.05 * ((0.5 : ℚ) - 0.5) else 0.01 * ((0.5 : ℚ) - 0.5)) =
      (some 0.5, 0)
    norm_num
  · show ¬((if 0 < (0.5 : ℚ) - 0.5 then 0.05 * ((0.5 : ℚ) - 0.5)
      else 0.01 * ((0.5 : ℚ) - 0.5)) < 0)
    norm_num

theorem prefMatch_length (l1 l2 : List ℤ) (h : prefMatch l1 l2 = true) :
    l1.length ≤ l2.length := by
  induction l1 generalizing l2 with
  | nil => simp
  | cons a as ih =>
    cases l2 with
    | nil => simp [prefMatch] at h
    | cons b bs =>
      simp only [prefMatch, Bool.and_eq_true] at h
      simp only [List.length_cons]
      exact Nat.succ_le_succ (ih bs h.2)

/-- C8 (modelled from the spec): after any event stream through the chord
machinery, the harmonic-progression metric is `0` when no detected chord
roots exist or when the root sequence is an exact prefix of no canonical
progression, and equals matched-prefix-length over progression-length for the
first progression of the fixed `PROGRESSIONS` table whose prefix it matches —
a value always within `[0, 1]`. -/
theorem harmonic_progression_prefix_score (events : List (ℤ × ℚ)) :
    (detectedRoots (specChordRun events) = [] → specHarmonicProgression events = 0) ∧
    ((∀ pr ∈ PROGRESSIONS,
        prefMatch (detectedRoots (specChordRun events)) pr.2 = false) →
      specHarmonicProgression events = 0) ∧
    (∀ pr ∈ PROGRESSIONS,
      PROGRESSIONS.find? (fun q => prefMatch (detectedRoots (specChordRun events)) q.2) =
        some pr →
      specHarmonicProgression events =
        ((detectedRoots (specChordRun events)).length : ℚ) / (pr.2.length : ℚ) ∧
      0 ≤ specHarmonicProgression events ∧ specHarmonicProgression events ≤ 1) := by
  refine ⟨?_, ?_, ?_⟩
  · intro h
    rw [specHarmonicProgression, specProgressionScore, if_pos h]
  · intro h
    rw [specHarmonicProgression, specProgressionScore]
    split
    · rfl
    · have hnone : PROGRESSIONS.find?
          (fun q => prefMatch (detectedRoots (specChordRun events)) q.2) = none := by
        apply List.find?_eq_none.mpr
        intro x hx
        simp [h x hx]
      rw [hnone]
  · intro pr hpr hfind
    have hpref : prefMatch (detectedRoots (specChordRun events)) pr.2 = true := by
      have := List.find?_some hfind
      simpa using this
    have hle := prefMatch_length _ _ hpref
    have heq : specHarmonicProgression events =
        ((detectedRoots (specChordRun events)).length : ℚ) / (pr.2.length : ℚ) := by
      rw [specHarmonicProgression, specProgressionScore]
      split
      · rename_i hnil
        rw [hnil]
        simp
      · rw [hfind]
    refine ⟨heq, ?_, ?_⟩
    · rw [heq]
      positivity
    · rw [heq]
      apply div_le_one_of_le₀
      · exact_mod_cast hle
      · positivity

set_option maxRecDepth 8000 in
/-- C8 witness: notes 0, 4, 7 within one 250 ms chord window followed by a
flush-triggering note detect a C-major chord (root 0), whose one-element root
sequence prefix-matches the first table progression `I_V_vi_IV` of length 4,
scoring `1/4`. -/
theorem harmonic_progression_prefix_score_witness :
    specHarmonicProgression [((0 : ℤ), (0 : ℚ)), (4, 100), (7, 200), (0, 1000)] =
      ((detectedRoots (specChordRun
        [((0 : ℤ), (0 : ℚ)), (4, 100), (7, 200), (0, 1000)])).length : ℚ) /
        ((("I_V_vi_IV", ([0, 7, 9, 5] : List ℤ)).2.length : ℚ)) ∧
    0 ≤ specHarmonicProgression [((0 : ℤ), (0 : ℚ)), (4, 100), (7, 200), (0, 1000)] ∧
    specHarmonicProgression [((0 : ℤ), (0 : ℚ)), (4, 100), (7, 200), (0, 1000)] ≤ 1 :=
  by
  have hcl : specClassifyChord [0, 4, 7] = some 0 := by decide
  have s2 : specChordStep ⟨[0], 0, []⟩ 4 100 = ⟨[0, 4], 0, []⟩ := by
    rw [specChordStep]
    norm_num [CHORD_WINDOW]
  have s3 : specChordStep ⟨[0, 4], 0, []⟩ 7 200 = ⟨[0, 4, 7], 0, []⟩ := by
    rw [specChordStep]
    norm_num [CHORD_WINDOW]
  have s4 : specChordStep ⟨[0, 4, 7], 0, []⟩ 0 1000 = ⟨[0], 1000, [some 0]⟩ := by
    rw [specChordStep]
    norm_num [CHORD_WINDOW, takeLast, hcl]
  have h1 : specChordRun [((0 : ℤ), (0 : ℚ)), (4, 100), (7, 200), (0, 1000)] =
      ⟨[0], 1000, [some 0]⟩ := by
    rw [specChordRun]
    simp only [List.foldl]
    rw [show specChordStep ⟨[], 0, []⟩ 0 0 = ⟨[0], 0, []⟩ from rfl, s2, s3, s4]
  have hroots : detectedRoots (specChordRun
      [((0 : ℤ), (0 : ℚ)), (4, 100), (7, 200), (0, 1000)]) = [0] := by
    rw [h1]
    decide
  refine (harmonic_progression_prefix_score _).2.2 ("I_V_vi_IV", [0, 7, 9, 5])
    (by decide) ?_
  rw [hroots]
  decide
